import Mathlib

/-!
Verification of the breeze-emu core: a shallow embedding of the 65816 CPU
register file, stack operations, addressing modes (both the addressing.rs
implementation and the inner copy living in cpu.rs), the PPU tilemap and
sprite-selection logic, and the master-clock scheduler drain loop, together
with theorems settling the specification claims.

Machine integers are modelled as Nat with explicit reduction modulo 2^8 or
2^16 where the Rust code wraps, and Option models assertion failures and
panics.
-/

namespace Breeze

/-- Memory is a function from (bank, address) to a byte, modelling the
AddressSpace trait of cpu.rs. -/
def Mem : Type := Nat → Nat → Nat

/-- A store through the AddressSpace: later stores shadow earlier ones.
The value is reduced to a byte, mirroring the u8 argument type. -/
def storeMem (m : Mem) (bank addr v : Nat) : Mem :=
  fun b a => if b = bank ∧ a = addr then v % 256 else m b a

/-- Flag bit NEG_FLAG from cpu.rs. -/
def NEG_FLAG : Nat := 0x80
/-- Flag bit OVERFLOW_FLAG from cpu.rs. -/
def OVERFLOW_FLAG : Nat := 0x40
/-- Flag bit SMALL_ACC_FLAG from cpu.rs. -/
def SMALL_ACC_FLAG : Nat := 0x20
/-- Flag bit SMALL_INDEX_FLAG from cpu.rs. -/
def SMALL_INDEX_FLAG : Nat := 0x10
/-- Flag bit DEC_FLAG from cpu.rs. -/
def DEC_FLAG : Nat := 0x08
/-- Flag bit IRQ_FLAG from cpu.rs. -/
def IRQ_FLAG : Nat := 0x04
/-- Flag bit ZERO_FLAG from cpu.rs. -/
def ZERO_FLAG : Nat := 0x02
/-- Flag bit CARRY_FLAG from cpu.rs. -/
def CARRY_FLAG : Nat := 0x01

namespace StatusReg

/-- StatusReg::negative. -/
def negative (p : Nat) : Bool := p &&& NEG_FLAG != 0
/-- StatusReg::zero. -/
def zero (p : Nat) : Bool := p &&& ZERO_FLAG != 0
/-- StatusReg::carry. -/
def carry (p : Nat) : Bool := p &&& CARRY_FLAG != 0
/-- StatusReg::irq_disable. -/
def irq_disable (p : Nat) : Bool := p &&& IRQ_FLAG != 0
/-- StatusReg::small_acc. -/
def small_acc (p : Nat) : Bool := p &&& SMALL_ACC_FLAG != 0
/-- StatusReg::small_index. -/
def small_index (p : Nat) : Bool := p &&& SMALL_INDEX_FLAG != 0

/-- StatusReg::set: sets or clears one flag bit. The complement of an
8-bit flag mask is written as xor with 0xff. -/
def set (p flag : Nat) (value : Bool) : Nat :=
  if value then p ||| flag else p &&& (flag ^^^ 0xff)

/-- StatusReg::set_negative. -/
def set_negative (p : Nat) (value : Bool) : Nat := set p NEG_FLAG value
/-- StatusReg::set_zero. -/
def set_zero (p : Nat) (value : Bool) : Nat := set p ZERO_FLAG value
/-- StatusReg::set_carry. -/
def set_carry (p : Nat) (value : Bool) : Nat := set p CARRY_FLAG value
/-- StatusReg::set_irq_disable. -/
def set_irq_disable (p : Nat) (value : Bool) : Nat := set p IRQ_FLAG value

/-- StatusReg::set_nz from cpu.rs, lines 53 to 61: note that it only ever
sets the zero or negative flag, it never clears either. Returns the new
status byte together with the untouched value. -/
def set_nz (p : Nat) (val : Nat) : Nat × Nat :=
  if val = 0 then (set_zero p true, val)
  else if val &&& 0x8000 != 0 then (set_negative p true, val)
  else (p, val)

/-- StatusReg::set_nz_8 from cpu.rs, lines 63 to 71. -/
def set_nz_8 (p : Nat) (val : Nat) : Nat × Nat :=
  if val = 0 then (set_zero p true, val)
  else if val &&& 0x80 != 0 then (set_negative p true, val)
  else (p, val)

end StatusReg

/-- The RESET vector address from cpu.rs. -/
def RESET_VEC8 : Nat := 0xFFFC

/-- CPU register file of cpu.rs, with a pure memory in place of the
AddressSpace implementor. -/
structure Cpu where
  a : Nat
  x : Nat
  y : Nat
  s : Nat
  dbr : Nat
  pbr : Nat
  d : Nat
  pc : Nat
  p : Nat
  emulation : Bool
  mem : Mem

/-- Cpu::new from cpu.rs: fetch the RESET vector little-endian from bank 0
and build the fixed reset state. -/
def Cpu.new (mem : Mem) : Cpu :=
  let pcl := mem 0 RESET_VEC8
  let pch := mem 0 (RESET_VEC8 + 1)
  { a := 0
    x := 0
    y := 0
    s := 0x0100
    dbr := 0
    d := 0
    pbr := 0
    pc := (pch <<< 8) ||| pcl
    p := SMALL_ACC_FLAG ||| SMALL_INDEX_FLAG ||| IRQ_FLAG
    emulation := true
    mem := mem }

/-- Cpu::pushb: store the byte at (0, S), then decrement S. In emulation
mode the assert that S stays in the 0x01 page is modelled by Option, and
only the low byte of S wraps; in native mode the full pointer wraps. -/
def Cpu.pushb (cpu : Cpu) (value : Nat) : Option Cpu :=
  let cpu1 : Cpu := { cpu with mem := storeMem cpu.mem 0 cpu.s value }
  if cpu1.emulation then
    if cpu1.s &&& 0xff00 = 0x0100 then
      some { cpu1 with s := (cpu1.s &&& 0xff00) ||| ((cpu1.s % 256 + 255) % 256) }
    else none
  else
    some { cpu1 with s := (cpu1.s + 65535) % 65536 }

/-- Cpu::pushw: push the high byte first, then the low byte. -/
def Cpu.pushw (cpu : Cpu) (value : Nat) : Option Cpu := do
  let hi := (value >>> 8) % 256
  let lo := value % 256
  let cpu1 ← cpu.pushb hi
  cpu1.pushb lo

/-- Cpu::popb: increment S (with the emulation-mode page assert modelled
by Option), then load the byte at (0, S). -/
def Cpu.popb (cpu : Cpu) : Option (Nat × Cpu) :=
  if cpu.emulation then
    if cpu.s &&& 0xff00 = 0x0100 then
      let s := (cpu.s &&& 0xff00) ||| ((cpu.s % 256 + 1) % 256)
      some (cpu.mem 0 s, { cpu with s := s })
    else none
  else
    let s := (cpu.s + 1) % 65536
    some (cpu.mem 0 s, { cpu with s := s })

/-- Cpu::popw: pop the low byte first, then the high byte. -/
def Cpu.popw (cpu : Cpu) : Option (Nat × Cpu) := do
  let (lo, cpu1) ← cpu.popb
  let (hi, cpu2) ← cpu1.popb
  some ((hi <<< 8) ||| lo, cpu2)

/-- Cpu::set_emulation: only on the transition from native mode into
emulation mode is the high byte of S forced to 0x01. -/
def Cpu.set_emulation (cpu : Cpu) (value : Bool) : Cpu :=
  if !cpu.emulation && value then
    { cpu with s := 0x0100 ||| (cpu.s &&& 0xff), emulation := value }
  else
    { cpu with emulation := value }

/-- Cpu::tcs: transfer the 16-bit accumulator to the stack pointer,
unconditionally, even in emulation mode. -/
def Cpu.tcs (cpu : Cpu) : Cpu :=
  { cpu with s := cpu.a }

/-- The addressing-mode variant type of cpu/addressing.rs. -/
inductive AddressingMode where
  | Immediate (val : Nat)
  | Immediate8 (val : Nat)
  | Absolute (addr : Nat)
  | AbsIndexedX (offset : Nat)
  | AbsLongIndexedX (bank : Nat) (addr : Nat)
  | AbsoluteLong (bank : Nat) (addr : Nat)
  | Direct (offset : Nat)
  | DirectIndexedX (offset : Nat)
  | Rel (rel : Int)
  | IndirectLongIdx (offset : Nat)
deriving DecidableEq

/-- AddressingMode::address of cpu/addressing.rs: the effective
(bank, offset) pair. Option models the panics on immediate variants and
the 24-bit overflow asserts. Plain u16 additions are modelled with
reduction modulo 65536. -/
def AddressingMode.address (am : AddressingMode) (cpu : Cpu) : Option (Nat × Nat) :=
  match am with
  | .Absolute addr => some (cpu.dbr, addr)
  | .AbsoluteLong bank addr => some (bank, addr)
  | .AbsLongIndexedX bank addr =>
      let a := (bank <<< 16) ||| addr
      let eff := a + cpu.x
      if eff &&& 0xff000000 = 0 then some (eff >>> 16, eff % 65536) else none
  | .AbsIndexedX offset => some (cpu.dbr, (offset + cpu.x) % 65536)
  | .Rel rel => some (cpu.pbr, (((cpu.pc : Int) + rel) % 65536).toNat)
  | .Direct offset => some (0, (cpu.d + offset) % 65536)
  | .DirectIndexedX offset => some (0, (cpu.d + offset + cpu.x) % 65536)
  | .IndirectLongIdx offset =>
      let addrPtr := (cpu.d + offset) % 65536
      let lo := cpu.mem 0 addrPtr
      let hi := cpu.mem 0 ((addrPtr + 1) % 65536)
      let bank := cpu.mem 0 ((addrPtr + 2) % 65536)
      let base := (bank <<< 16) ||| (hi <<< 8) ||| lo
      let eff := base + cpu.y
      if eff &&& 0xff000000 = 0 then some (eff >>> 16, eff % 65536) else none
  | .Immediate _ => none
  | .Immediate8 _ => none

/-- AddressingMode::loadb of cpu/addressing.rs. -/
def AddressingMode.loadb (am : AddressingMode) (cpu : Cpu) : Option Nat :=
  match am with
  | .Immediate _ => none
  | .Immediate8 val => some val
  | _ => do
      let (bank, addr) ← am.address cpu
      some (cpu.mem bank addr)

/-- AddressingMode::loadw of cpu/addressing.rs: asserts the effective
offset is not the last byte of the bank, then loads little-endian. -/
def AddressingMode.loadw (am : AddressingMode) (cpu : Cpu) : Option Nat :=
  match am with
  | .Immediate val => some val
  | .Immediate8 _ => none
  | _ => do
      let (bank, addr) ← am.address cpu
      if addr < 0xffff then
        some ((cpu.mem bank (addr + 1)) <<< 8 ||| cpu.mem bank addr)
      else none

/-- AddressingMode::storeb of cpu/addressing.rs. -/
def AddressingMode.storeb (am : AddressingMode) (cpu : Cpu) (value : Nat) : Option Cpu := do
  let (bank, addr) ← am.address cpu
  some { cpu with mem := storeMem cpu.mem bank addr value }

/-- AddressingMode::storew of cpu/addressing.rs: low byte at the
effective offset, high byte at the next offset. -/
def AddressingMode.storew (am : AddressingMode) (cpu : Cpu) (value : Nat) : Option Cpu := do
  let (bank, addr) ← am.address cpu
  if addr < 0xffff then
    some { cpu with
           mem := storeMem (storeMem cpu.mem bank addr (value % 256))
                           bank (addr + 1) ((value >>> 8) % 256) }
  else none

namespace Inner

/-- The addressing-mode variant type embedded directly in cpu.rs (the
duplicated inner copy). -/
inductive AddressingMode where
  | Immediate (val : Nat)
  | Immediate8 (val : Nat)
  | Absolute (addr : Nat)
  | AbsoluteLong (bank : Nat) (addr : Nat)
  | AbsIndexedX (offset : Nat)
  | Direct (offset : Nat)
  | Rel (rel : Int)
  | IndirectLongIdx (offset : Nat)
deriving DecidableEq

/-- Recognizer for the IndirectLongIdx variant of the inner copy. -/
def AddressingMode.isIndirectLongIdx : AddressingMode → Bool
  | .IndirectLongIdx _ => true
  | _ => false

/-- AddressingMode::address of cpu.rs (the inner copy). Note that the
IndirectLongIdx arm performs no memory dereference at all: it computes
bank 0 and D + offset + Y directly. -/
def AddressingMode.address (am : AddressingMode) (cpu : Cpu) : Option (Nat × Nat) :=
  match am with
  | .Absolute addr => some (cpu.dbr, addr)
  | .AbsoluteLong bank addr => some (bank, addr)
  | .AbsIndexedX offset => some (cpu.dbr, (offset + cpu.x) % 65536)
  | .Rel rel => some (cpu.pbr, (((cpu.pc : Int) + rel) % 65536).toNat)
  | .Direct offset => some (0, (cpu.d + offset) % 65536)
  | .IndirectLongIdx offset => some (0, (cpu.d + offset + cpu.y) % 65536)
  | .Immediate _ => none
  | .Immediate8 _ => none

/-- AddressingMode::loadb of cpu.rs (the inner copy). -/
def AddressingMode.loadb (am : AddressingMode) (cpu : Cpu) : Option Nat :=
  match am with
  | .Immediate _ => none
  | .Immediate8 val => some val
  | _ => do
      let (bank, addr) ← am.address cpu
      some (cpu.mem bank addr)

/-- AddressingMode::loadw of cpu.rs (the inner copy). -/
def AddressingMode.loadw (am : AddressingMode) (cpu : Cpu) : Option Nat :=
  match am with
  | .Immediate val => some val
  | .Immediate8 _ => none
  | _ => do
      let (bank, addr) ← am.address cpu
      if addr < 0xffff then
        some ((cpu.mem bank (addr + 1)) <<< 8 ||| cpu.mem bank addr)
      else none

/-- AddressingMode::storeb of cpu.rs (the inner copy). -/
def AddressingMode.storeb (am : AddressingMode) (cpu : Cpu) (value : Nat) : Option Cpu := do
  let (bank, addr) ← am.address cpu
  some { cpu with mem := storeMem cpu.mem bank addr value }

/-- AddressingMode::storew of cpu.rs (the inner copy). Faithful to the
source, which stores the high byte at the same offset as the low byte:
both store calls use addr, the second one is not at addr + 1. -/
def AddressingMode.storew (am : AddressingMode) (cpu : Cpu) (value : Nat) : Option Cpu := do
  let (bank, addr) ← am.address cpu
  if addr < 0xffff then
    some { cpu with
           mem := storeMem (storeMem cpu.mem bank addr (value % 256))
                           bank addr ((value >>> 8) % 256) }
  else none

/-- Maps each inner variant to the addressing.rs variant of the same
name, for comparing the two implementations. -/
def AddressingMode.toOuter : AddressingMode → Breeze.AddressingMode
  | .Immediate v => .Immediate v
  | .Immediate8 v => .Immediate8 v
  | .Absolute a => .Absolute a
  | .AbsoluteLong b a => .AbsoluteLong b a
  | .AbsIndexedX o => .AbsIndexedX o
  | .Direct o => .Direct o
  | .Rel r => .Rel r
  | .IndirectLongIdx o => .IndirectLongIdx o

end Inner

/-- Cpu::lda from cpu.rs: load the accumulator and update the N and Z
flags through set_nz_8 or set_nz depending on the accumulator width. -/
def Cpu.lda (cpu : Cpu) (am : Inner.AddressingMode) : Option Cpu :=
  if StatusReg.small_acc cpu.p then do
    let val ← am.loadb cpu
    let (p, r) := StatusReg.set_nz_8 cpu.p val
    some { cpu with p := p, a := (cpu.a &&& 0xff00) ||| r }
  else do
    let val ← am.loadw cpu
    let (p, r) := StatusReg.set_nz cpu.p val
    some { cpu with p := p, a := r }

/-- The slice of PPU state used by the rendering code under analysis:
video RAM and object-attribute memory as byte functions, the OBSEL
register, and the current scanline. -/
structure Ppu where
  vram : Nat → Nat
  oam : Nat → Nat
  obsel : Nat
  scanline : Nat

/-- Unpacked tilemap entry, from ppu/rendering.rs. -/
structure TilemapEntry where
  vflip : Bool
  hflip : Bool
  priority : Nat
  palette : Nat
  tile_number : Nat
deriving DecidableEq

/-- Ppu::tilemap_entry from ppu/rendering.rs: decodes the 16-bit word
with layout vhopppcc cccccccc (high byte first in the layout comment,
low byte at the even VRAM address). -/
def Ppu.tilemap_entry (ppu : Ppu) (word_address : Nat) : TilemapEntry :=
  let lo := ppu.vram (word_address * 2)
  let hi := ppu.vram (word_address * 2 + 1)
  { vflip := hi &&& 0x80 != 0
    hflip := hi &&& 0x40 != 0
    priority := (hi &&& 0x20) >>> 5
    palette := (hi &&& 0x1c) >>> 2
    tile_number := ((hi &&& 0x03) <<< 8) ||| lo }

/-- Unpacked OAM entry, from ppu/rendering.rs. -/
structure OamEntry where
  tile : Nat
  name_table : Nat
  x : Int
  y : Nat
  priority : Nat
  palette : Nat
  hflip : Bool
  vflip : Bool
  size_toggle : Bool
deriving DecidableEq

/-- Ppu::obj_size from ppu/rendering.rs: the configured sprite size in
pixels; the two unimplemented OBSEL settings panic, modelled by none. -/
def Ppu.obj_size (ppu : Ppu) (alt : Bool) : Option (Nat × Nat) :=
  match ppu.obsel &&& 0b111 with
  | 0 => some (if !alt then (8, 8) else (16, 16))
  | 1 => some (if !alt then (8, 8) else (32, 32))
  | 2 => some (if !alt then (8, 8) else (64, 64))
  | 3 => some (if !alt then (16, 16) else (32, 32))
  | 4 => some (if !alt then (16, 16) else (64, 64))
  | 5 => some (if !alt then (32, 32) else (64, 64))
  | _ => none

/-- Ppu::get_oam_entry from ppu/rendering.rs. The 9-bit X coordinate is
sign-extended exactly as the source does (or with 0xfff0) and then read
as an i16. -/
def Ppu.get_oam_entry (ppu : Ppu) (index : Nat) : OamEntry :=
  let start := index * 4
  let x0 := ppu.oam start
  let byte4 := ppu.oam (start + 3)
  let byte := ppu.oam (512 + index / 4)
  let info := (byte >>> (index &&& 0x03)) &&& 0x03
  let xword : Nat := if info &&& 0x02 != 0 then 0xfff0 ||| x0 else x0
  { tile := ppu.oam (start + 2)
    name_table := byte4 &&& 1
    x := (xword : Int) - (if 32768 ≤ xword then 65536 else 0)
    y := ppu.oam (start + 1)
    priority := (byte4 &&& 0x30) >>> 4
    palette := (byte4 &&& 0x0e) >>> 1
    hflip := byte4 &&& 0x40 != 0
    vflip := byte4 &&& 0x80 != 0
    size_toggle := info &&& 0x01 != 0 }

/-- Ppu::sprite_on_scanline from ppu/rendering.rs: X of exactly -256 is
normalized to 0, the horizontal test is -width < x, and the vertical
span must cover the current scanline. -/
def Ppu.sprite_on_scanline (ppu : Ppu) (sprite : OamEntry) : Option Bool :=
  match ppu.obj_size sprite.size_toggle with
  | none => none
  | some (w, h) =>
    let x := if sprite.x = -256 then 0 else sprite.x
    if -(w : Int) < x then
      some (decide (sprite.y ≤ ppu.scanline ∧ ppu.scanline ≤ sprite.y + h))
    else
      some false

/-- The scan over OAM entries in Ppu::collect_sprite_data_for_scanline
(first phase): entries are visited in order starting at first_sprite = 0;
a visible entry is pushed onto a capacity-32 vector, and when the push
fails because the vector is full the scan breaks out. The first argument
counts the entries not yet visited, the second is the next index. Returns
the list of selected OAM indices and the index at which scanning stopped
(128 when the whole table was scanned without hitting the cap). -/
def collectGo (ppu : Ppu) : Nat → Nat → List Nat → Option (List Nat × Nat)
  | 0, _, acc => some (acc, 128)
  | n + 1, i, acc =>
    match ppu.sprite_on_scanline (ppu.get_oam_entry i) with
    | none => none
    | some b =>
      if b then
        if acc.length = 32 then some (acc, i)
        else collectGo ppu n (i + 1) (acc ++ [i])
      else collectGo ppu n (i + 1) acc

/-- Per-scanline sprite selection: the scan of all 128 OAM entries with
the 32-sprite cap, from Ppu::collect_sprite_data_for_scanline. -/
def collectVisibleSprites (ppu : Ppu) : Option (List Nat × Nat) :=
  collectGo ppu 128 0 []

/-- One result of Ppu::update as observed by the scheduler loop in
snes.rs: master cycles consumed plus the hblank and vblank event flags. -/
structure PpuEvent where
  cy : Nat
  hblank : Bool
  vblank : Bool
deriving DecidableEq

/-- Outcome of one run of the PPU drain loop of Snes::run. -/
structure DrainResult where
  debt : Int
  nmiTriggers : Nat
  inputLatches : Nat
  rest : List PpuEvent
deriving DecidableEq

/-- The PPU drain loop of Snes::run (snes.rs, lines 195 to 216) over a
stream of Ppu::update results: while the picture-cycle debt is positive,
consume one update; on a vblank event latch input, and if NMI is
enabled, count one NMI trigger and break out immediately, leaving the
remaining stream undrained. -/
def drainPpu (nmiEnabled : Bool) (debt : Int) : List PpuEvent → DrainResult
  | [] => { debt := debt, nmiTriggers := 0, inputLatches := 0, rest := [] }
  | e :: rest =>
    if 0 < debt then
      let debt1 := debt - e.cy
      if e.vblank then
        if nmiEnabled then
          { debt := debt1, nmiTriggers := 1, inputLatches := 1, rest := rest }
        else
          let r := drainPpu nmiEnabled debt1 rest
          { r with inputLatches := r.inputLatches + 1 }
      else
        drainPpu nmiEnabled debt1 rest
    else
      { debt := debt, nmiTriggers := 0, inputLatches := 0, rest := e :: rest }

/-- Observer used in closed statements: the byte an optional CPU state
holds at bank b, address a. -/
def memAt (o : Option Cpu) (b a : Nat) : Option Nat :=
  o.map fun c => c.mem b a

/-- Observer used in closed statements: the stack pointer of an
optional CPU state. -/
def sOf (o : Option Cpu) : Option Nat :=
  o.map fun c => c.s

/-- Observer: the status byte and the low accumulator byte of an
optional CPU state. -/
def flagsAndLowA (o : Option Cpu) : Option (Nat × Nat) :=
  o.map fun c => (c.p, c.a &&& 0xff)

/-- Pushing a word and then popping a word, observing the popped value
and the final stack pointer. -/
def pushwPopw (cpu : Cpu) (v : Nat) : Option (Nat × Nat) :=
  ((cpu.pushw v).bind Cpu.popw).map fun p => (p.1, p.2.s)

/-- Pushing two bytes and then popping two bytes, observing the popped
values and the final stack pointer. -/
def push2pop2 (cpu : Cpu) (a b : Nat) : Option (Nat × Nat × Nat) :=
  (cpu.pushb a).bind fun c1 =>
  (c1.pushb b).bind fun c2 =>
  c2.popb.bind fun r1 =>
  r1.2.popb.bind fun r2 =>
  some (r1.1, r2.1, r2.2.s)

/-- The stack-pointer decrement performed by Cpu::pushb, as a function
of the emulation flag. -/
def stackDec (emu : Bool) (s : Nat) : Nat :=
  if emu then (s &&& 0xff00) ||| ((s % 256 + 255) % 256)
  else (s + 65535) % 65536

/-- Store a word through one addressing-mode copy and load it back
through an identical variant (outer implementation). -/
def storewLoadw (am : AddressingMode) (cpu : Cpu) (v : Nat) : Option Nat :=
  (am.storew cpu v).bind (AddressingMode.loadw am)

/-- Store a word through the inner cpu.rs copy and load it back through
an identical variant. -/
def storewLoadwInner (am : Inner.AddressingMode) (cpu : Cpu) (v : Nat) : Option Nat :=
  (am.storew cpu v).bind (Inner.AddressingMode.loadw am)

/-- Recognizer for the immediate variants of the addressing.rs type. -/
def AddressingMode.isImmediate : AddressingMode → Bool
  | .Immediate _ => true
  | .Immediate8 _ => true
  | _ => false

/-- Observer: the high byte mask of the stack pointer of an optional
CPU state. -/
def sHigh (o : Option Cpu) : Option Nat :=
  o.map fun c => c.s &&& 0xff00

/-- Observer: the high byte mask of the stack pointer after a pop. -/
def popSHigh (o : Option (Nat × Cpu)) : Option Nat :=
  o.map fun p => p.2.s &&& 0xff00

/-- The all-zero memory. -/
def zeroMem : Mem := fun _ _ => 0

/-- A base CPU state with all registers zero, native mode, zero memory. -/
def zeroCpu : Cpu :=
  { a := 0, x := 0, y := 0, s := 0, dbr := 0, pbr := 0, d := 0, pc := 0
    p := 0, emulation := false, mem := zeroMem }

/-- Memory holding the reset vector bytes 0x00, 0x80 at bank 0, offset
0xFFFC and 0xFFFD. -/
def resetMem : Mem := fun b a => if b = 0 ∧ a = 0xFFFD then 0x80 else 0

/-- CPU state in 8-bit accumulator mode with the zero flag set. -/
def c1cpuZ : Cpu :=
  { zeroCpu with s := 0x0100, p := SMALL_ACC_FLAG ||| ZERO_FLAG, emulation := true }

/-- CPU state in 8-bit accumulator mode with the negative flag set. -/
def c1cpuN : Cpu :=
  { zeroCpu with s := 0x0100, p := SMALL_ACC_FLAG ||| NEG_FLAG, emulation := true }

/-- An emulation-mode CPU state whose stack pointer already violates the
0x01 page invariant. -/
def c3cpuHighS : Cpu := { zeroCpu with s := 0x2345, emulation := true }

/-- An emulation-mode CPU state about to execute tcs with A = 0x2345. -/
def c3cpuTcs : Cpu := { zeroCpu with a := 0x2345, s := 0x0100, emulation := true }

/-- An emulation-mode CPU state satisfying the stack invariant. -/
def c3cpuEmu : Cpu := { zeroCpu with s := 0x01F0, emulation := true }

/-- An emulation-mode CPU state at the top of the stack page. -/
def c5cpu : Cpu := { zeroCpu with s := 0x01FF, emulation := true }

/-- Memory holding the little-endian 24-bit pointer 0x051234 at bank 0,
offset 0. -/
def c10mem : Mem := fun b a =>
  if b = 0 ∧ a = 0 then 0x34
  else if b = 0 ∧ a = 1 then 0x12
  else if b = 0 ∧ a = 2 then 0x05
  else 0

/-- CPU state whose direct page holds the pointer for the
IndirectLongIdx comparison. -/
def c10cpu : Cpu := { zeroCpu with mem := c10mem }

/-- OAM bytes for which sprites 0 to 39 are visible on scanline 0 and
sprites 40 to 127 are not (their Y byte is 100). -/
def c4oam : Nat → Nat := fun a =>
  if a < 160 then 0
  else if a < 512 then (if a % 4 = 1 then 100 else 0)
  else 0

/-- PPU state for the sprite-cap scenario: 8x8 sprites, scanline 0. -/
def c4ppu : Ppu := { vram := fun _ => 0, oam := c4oam, obsel := 0, scanline := 0 }

/-- VRAM holding the tilemap word 0xA007 at word address 0. -/
def tilemapVram : Nat → Nat := fun a =>
  if a = 0 then 0x07 else if a = 1 then 0xA0 else 0

/-- PPU state for the tilemap decode scenario. -/
def tilemapPpu : Ppu := { vram := tilemapVram, oam := fun _ => 0, obsel := 0, scanline := 0 }

/-- Masking with 0xff is reduction modulo 256. -/
theorem and_ff_eq_mod (s : Nat) : s &&& 0xff = s % 256 := by
  simpa using Nat.and_pow_two_sub_one_eq_mod s 8

/-- Masking with 0xffff is reduction modulo 65536. -/
theorem and_ffff_eq_mod (s : Nat) : s &&& 0xffff = s % 65536 := by
  simpa using Nat.and_pow_two_sub_one_eq_mod s 16

/-- Oring 256 with a byte-sized value is plain addition. -/
theorem or256_eq_add {u : Nat} (h : u < 256) : 256 ||| u = 256 + u := by
  have h2 := Nat.mul_add_lt_is_or (i := 8) (b := u) (by simpa using h) 1
  simpa using h2.symm

/-- Oring a value shifted left by 8 with a byte is plain addition. -/
theorem shl8_or_eq_add {hi lo : Nat} (h : lo < 256) :
    (hi <<< 8) ||| lo = hi * 256 + lo := by
  have h2 := Nat.mul_add_lt_is_or (i := 8) (b := lo) (by simpa using h) hi
  rw [Nat.shiftLeft_eq]
  simpa [Nat.mul_comm] using h2.symm

/-- A byte-sized value has no bits in the 0xff00 mask. -/
theorem and_ff00_small {u : Nat} (h : u < 256) : u &&& 0xff00 = 0 := by
  have h1 : u &&& 0xff = u := by rw [and_ff_eq_mod]; omega
  calc u &&& 0xff00 = (u &&& 0xff) &&& 0xff00 := by rw [h1]
    _ = u &&& (0xff &&& 0xff00) := Nat.and_assoc u 0xff 0xff00
    _ = u &&& 0 := by rw [show (0xff &&& 0xff00 : Nat) = 0 from by decide]
    _ = 0 := Nat.and_zero u

/-- Values in the 0x01 stack page have high-byte mask 0x0100. -/
theorem add256_and_ff00 {u : Nat} (h : u < 256) :
    (256 + u) &&& 0xff00 = 0x0100 := by
  rw [← or256_eq_add h, Nat.and_distrib_right, and_ff00_small h]
  rw [show (256 &&& 0xff00 : Nat) = 256 from by decide, Nat.or_zero]

/-- A 16-bit stack pointer whose 0xff00 mask is 0x0100 decomposes as
256 plus its low byte. -/
theorem s_decomp {s : Nat} (h1 : s < 65536) (h2 : s &&& 0xff00 = 0x0100) :
    s = 256 + s % 256 := by
  have ha : s &&& 0xffff = s := by rw [and_ffff_eq_mod]; omega
  have hb : (s &&& 0xff00) ||| (s &&& 0xff) = s := by
    rw [← Nat.and_or_distrib_left,
        show (0xff00 ||| 0xff : Nat) = 0xffff from by decide]
    exact ha
  rw [h2, and_ff_eq_mod, or256_eq_add (Nat.mod_lt s (by norm_num))] at hb
  omega

/-- Reading the cell a store just wrote returns the stored byte. -/
theorem storeMem_self (m : Mem) (b a v : Nat) :
    storeMem m b a v b a = v % 256 := by
  simp [storeMem]

/-- Reading a different cell than a store wrote is unaffected. -/
theorem storeMem_other (m : Mem) (b a v b2 a2 : Nat) (h : ¬(b2 = b ∧ a2 = a)) :
    storeMem m b a v b2 a2 = m b2 a2 := by
  simp [storeMem, h]

/-- C1: after executing lda of the immediate byte 1 in 8-bit accumulator
mode from a state whose zero flag is set, the loaded result is the
non-zero byte 1 yet the status byte is unchanged, so the zero flag stays
true; likewise a set negative flag survives loading the non-negative
byte 1. The flag helpers set_nz and set_nz_8 only ever set Z and N; they
never clear them, so the claimed iff fails in the falsifying direction. -/
theorem c1_nz_flags_never_cleared :
    flagsAndLowA (c1cpuZ.lda (Inner.AddressingMode.Immediate8 1)) = some (0x22, 1) ∧
    StatusReg.zero 0x22 = true ∧ (1 : Nat) ≠ 0 ∧
    flagsAndLowA (c1cpuN.lda (Inner.AddressingMode.Immediate8 1)) = some (0xA0, 1) ∧
    StatusReg.negative 0xA0 = true ∧ (1 : Nat) &&& 0x80 = 0 := by decide

/-- C2: the inner storew copy in cpu.rs writes the high byte over the low
byte at the same effective offset, so storing 0x1234 through Absolute
0x0010 and loading it back yields 0x0012, not 0x1234; the addressing.rs
implementation at the same input round-trips correctly. -/
theorem c2_inner_storew_roundtrip_fails :
    storewLoadwInner (Inner.AddressingMode.Absolute 0x10) zeroCpu 0x1234 = some 0x0012 ∧
    (0x0012 : Nat) ≠ 0x1234 ∧
    memAt (Inner.AddressingMode.storew (Inner.AddressingMode.Absolute 0x10) zeroCpu 0x1234)
      0 0x10 = some 0x12 ∧
    memAt (Inner.AddressingMode.storew (Inner.AddressingMode.Absolute 0x10) zeroCpu 0x1234)
      0 0x11 = some 0x00 ∧
    storewLoadw (AddressingMode.Absolute 0x10) zeroCpu 0x1234 = some 0x1234 := by decide

/-- C7 counterexample: the tilemap word 0xA007 carries the palette bits
000, so the decoded palette is 0, not 1 as claimed. -/
theorem c7_palette_of_a007_is_zero :
    (tilemapPpu.tilemap_entry 0).palette = 0 ∧
    (tilemapPpu.tilemap_entry 0).palette ≠ 1 := by decide

/-- C7 amended: a tilemap word with low byte 0x07 and high byte 0xA0
decodes to vflip true, hflip false, priority 1, palette 0, tile number 7
under the vhopppcc cccccccc layout. -/
theorem c7_tilemap_decode (ppu : Ppu) (w : Nat)
    (h0 : ppu.vram (w * 2) = 0x07) (h1 : ppu.vram (w * 2 + 1) = 0xA0) :
    ppu.tilemap_entry w =
      { vflip := true, hflip := false, priority := 1, palette := 0, tile_number := 7 } := by
  unfold Ppu.tilemap_entry
  rw [h0, h1]
  decide

/-- C7 amended witness at the concrete VRAM contents. -/
theorem c7_tilemap_decode_witness :
    tilemapPpu.vram 0 = 0x07 ∧ tilemapPpu.vram 1 = 0xA0 ∧
    tilemapPpu.tilemap_entry 0 =
      { vflip := true, hflip := false, priority := 1, palette := 0, tile_number := 7 } :=
  ⟨by decide, by decide, c7_tilemap_decode tilemapPpu 0 (by decide) (by decide)⟩

/-- C9: construction reads the reset vector little-endian from bank 0 at
0xFFFC, and establishes the documented reset state. -/
theorem c9_reset_state (mem : Mem)
    (h1 : mem 0 0xFFFC = 0x00) (h2 : mem 0 0xFFFD = 0x80) :
    (Cpu.new mem).pc = (mem 0 0xFFFD <<< 8) ||| mem 0 0xFFFC ∧
    (Cpu.new mem).pbr = 0 ∧ (Cpu.new mem).pc = 0x8000 ∧
    (Cpu.new mem).a = 0 ∧ (Cpu.new mem).x = 0 ∧ (Cpu.new mem).y = 0 ∧
    (Cpu.new mem).d = 0 ∧ (Cpu.new mem).dbr = 0 ∧
    (Cpu.new mem).s = 0x0100 ∧ (Cpu.new mem).s &&& 0xff00 = 0x0100 ∧
    StatusReg.small_acc (Cpu.new mem).p = true ∧
    StatusReg.small_index (Cpu.new mem).p = true ∧
    StatusReg.irq_disable (Cpu.new mem).p = true ∧
    (Cpu.new mem).emulation = true := by
  refine ⟨?_, rfl, ?_, rfl, rfl, rfl, rfl, rfl, rfl, ?_, ?_, ?_, ?_, rfl⟩
  · rfl
  · show (mem 0 (RESET_VEC8 + 1) <<< 8) ||| mem 0 RESET_VEC8 = 0x8000
    rw [show RESET_VEC8 + 1 = 0xFFFD from rfl, show RESET_VEC8 = 0xFFFC from rfl, h1, h2]
    decide
  · show (0x0100 : Nat) &&& 0xff00 = 0x0100
    decide
  · show StatusReg.small_acc (SMALL_ACC_FLAG ||| SMALL_INDEX_FLAG ||| IRQ_FLAG) = true
    decide
  · show StatusReg.small_index (SMALL_ACC_FLAG ||| SMALL_INDEX_FLAG ||| IRQ_FLAG) = true
    decide
  · show StatusReg.irq_disable (SMALL_ACC_FLAG ||| SMALL_INDEX_FLAG ||| IRQ_FLAG) = true
    decide

/-- C9 witness at a concrete memory holding the reset vector bytes. -/
theorem c9_reset_state_witness :
    resetMem 0 0xFFFC = 0x00 ∧ resetMem 0 0xFFFD = 0x80 ∧
    (Cpu.new resetMem).pc = 0x8000 ∧ (Cpu.new resetMem).pbr = 0 :=
  ⟨by decide, by decide, (c9_reset_state resetMem (by decide) (by decide)).2.2.1,
    (c9_reset_state resetMem (by decide) (by decide)).2.1⟩

/-- C4: with 40 OAM entries all visible on the current scanline, the
scan selects exactly the first 32 entries in order and stops at entry
index 32; no sprite-overflow condition exists in the code to be raised
(the source carries a FIXME instead of setting bit 6 of 0x213e). -/
theorem c4_sprite_cap_first_32 :
    collectVisibleSprites c4ppu = some (List.range 32, 32) ∧
    (∀ i < 40, c4ppu.sprite_on_scanline (c4ppu.get_oam_entry i) = some true) := by decide

/-- One pushb step in emulation mode with the page invariant holding. -/
theorem pushb_emu (cpu : Cpu) (v : Nat)
    (he : cpu.emulation = true) (hs : cpu.s &&& 0xff00 = 0x0100) :
    cpu.pushb v = some { cpu with
                         mem := storeMem cpu.mem 0 cpu.s v,
                         s := 256 + (cpu.s % 256 + 255) % 256 } := by
  have hu : (cpu.s % 256 + 255) % 256 < 256 := Nat.mod_lt _ (by norm_num)
  unfold Cpu.pushb
  simp only [he, hs, if_true, if_pos]
  rw [or256_eq_add hu]

/-- One popb step in emulation mode with the page invariant holding. -/
theorem popb_emu (cpu : Cpu)
    (he : cpu.emulation = true) (hs : cpu.s &&& 0xff00 = 0x0100) :
    cpu.popb = some (cpu.mem 0 (256 + (cpu.s % 256 + 1) % 256),
                     { cpu with s := 256 + (cpu.s % 256 + 1) % 256 }) := by
  have hu : (cpu.s % 256 + 1) % 256 < 256 := Nat.mod_lt _ (by norm_num)
  unfold Cpu.popb
  simp only [he, hs, if_true, if_pos]
  rw [or256_eq_add hu]

/-- One pushb step in native mode. -/
theorem pushb_nat (cpu : Cpu) (v : Nat) (he : cpu.emulation = false) :
    cpu.pushb v = some { cpu with
                         mem := storeMem cpu.mem 0 cpu.s v,
                         s := (cpu.s + 65535) % 65536 } := by
  unfold Cpu.pushb
  simp only [he, Bool.false_eq_true, if_false]

/-- One popb step in native mode. -/
theorem popb_nat (cpu : Cpu) (he : cpu.emulation = false) :
    cpu.popb = some (cpu.mem 0 ((cpu.s + 1) % 65536),
                     { cpu with s := (cpu.s + 1) % 65536 }) := by
  unfold Cpu.popb
  simp only [he, Bool.false_eq_true, if_false]

/-- C3 counterexample: with emulation mode already true and S = 0x2345,
set_emulation true leaves S untouched, so the high byte of S is not
forced to 0x01; and tcs executed in emulation mode copies A = 0x2345
into S wholesale, violating the claimed invariant. -/
theorem c3_counterexample :
    c3cpuHighS.emulation = true ∧
    (c3cpuHighS.set_emulation true).s = 0x2345 ∧
    (c3cpuHighS.set_emulation true).emulation = true ∧
    (0x2345 : Nat) &&& 0xff00 ≠ 0x0100 ∧
    c3cpuTcs.emulation = true ∧
    c3cpuTcs.tcs.s = 0x2345 ∧
    c3cpuTcs.tcs.emulation = true := by decide

/-- C3 amended: set_emulation clamps the high byte of S to 0x01 exactly
on the native-to-emulation transition; when emulation is already true it
leaves S unchanged, leaving emulation performs no forced change, and
pushb and popb preserve the 0x01-page invariant whenever it holds (they
assert it and touch only the low byte of S). -/
theorem c3_emulation_invariant (cpu : Cpu) (v s0 : Nat)
    (he : cpu.emulation = true) (hs : cpu.s &&& 0xff00 = 0x0100) :
    (cpu.set_emulation true).s = cpu.s ∧
    (cpu.set_emulation false).s = cpu.s ∧
    (Cpu.set_emulation { cpu with emulation := false, s := s0 } true).s
      = 0x0100 ||| (s0 &&& 0xff) ∧
    (0x0100 ||| (s0 &&& 0xff)) &&& 0xff00 = 0x0100 ∧
    sHigh (cpu.pushb v) = some 0x0100 ∧
    popSHigh cpu.popb = some 0x0100 := by
  have h4 : (0x0100 ||| (s0 &&& 0xff)) &&& 0xff00 = 0x0100 := by
    have hlt : s0 &&& 0xff < 256 := by rw [and_ff_eq_mod]; exact Nat.mod_lt _ (by norm_num)
    rw [or256_eq_add hlt]
    exact add256_and_ff00 hlt
  refine ⟨?_, ?_, ?_, h4, ?_, ?_⟩
  · simp [Cpu.set_emulation, he]
  · simp [Cpu.set_emulation]
  · simp [Cpu.set_emulation]
  · rw [sHigh, pushb_emu cpu v he hs]
    show some ((256 + (cpu.s % 256 + 255) % 256) &&& 0xff00) = some 0x0100
    rw [add256_and_ff00 (Nat.mod_lt _ (by norm_num))]
  · rw [popSHigh, popb_emu cpu he hs]
    show some ((256 + (cpu.s % 256 + 1) % 256) &&& 0xff00) = some 0x0100
    rw [add256_and_ff00 (Nat.mod_lt _ (by norm_num))]

/-- C3 amended witness at a concrete emulation-mode state. -/
theorem c3_emulation_invariant_witness :
    c3cpuEmu.emulation = true ∧ c3cpuEmu.s &&& 0xff00 = 0x0100 ∧
    (c3cpuEmu.set_emulation true).s = c3cpuEmu.s ∧
    sHigh (c3cpuEmu.pushb 5) = some 0x0100 :=
  ⟨by decide, by decide,
   (c3_emulation_invariant c3cpuEmu 5 0x2345 (by decide) (by decide)).1,
   (c3_emulation_invariant c3cpuEmu 5 0x2345 (by decide) (by decide)).2.2.2.2.1⟩

/-- C10 counterexample: on the same register and memory state the two
IndirectLongIdx implementations compute different addresses (the
addressing.rs copy dereferences the 24-bit pointer 0x051234, the inner
cpu.rs copy does not dereference at all), and the two storew
implementations write different bytes at offset + 1. -/
theorem c10_implementations_disagree :
    AddressingMode.address (AddressingMode.IndirectLongIdx 0) c10cpu = some (0x05, 0x1234) ∧
    Inner.AddressingMode.address (Inner.AddressingMode.IndirectLongIdx 0) c10cpu
      = some (0, 0) ∧
    ((0x05, 0x1234) : Nat × Nat) ≠ (0, 0) ∧
    memAt (AddressingMode.storew (AddressingMode.Absolute 0x10) zeroCpu 0x1234)
      0 0x11 = some 0x12 ∧
    memAt (Inner.AddressingMode.storew (Inner.AddressingMode.Absolute 0x10) zeroCpu 0x1234)
      0 0x11 = some 0x00 := by decide

/-- C10 amended: on the common variants other than IndirectLongIdx
(Immediate, Immediate8, Absolute, AbsoluteLong, AbsIndexedX, Direct,
Rel) the two implementations agree on address, loadb, loadw and storeb;
they disagree on IndirectLongIdx and on storew. -/
theorem c10_common_variants_agree (am : Inner.AddressingMode) (cpu : Cpu) (v : Nat)
    (hili : am.isIndirectLongIdx = false) :
    am.address cpu = (am.toOuter).address cpu ∧
    am.loadb cpu = (am.toOuter).loadb cpu ∧
    am.loadw cpu = (am.toOuter).loadw cpu ∧
    am.storeb cpu v = (am.toOuter).storeb cpu v := by
  cases am
  case IndirectLongIdx o =>
    simp [Inner.AddressingMode.isIndirectLongIdx] at hili
  all_goals exact ⟨rfl, rfl, rfl, rfl⟩

/-- C10 amended witness at the Absolute variant. -/
theorem c10_common_variants_agree_witness :
    Inner.AddressingMode.isIndirectLongIdx (Inner.AddressingMode.Absolute 3) = false ∧
    Inner.AddressingMode.address (Inner.AddressingMode.Absolute 3) zeroCpu
      = AddressingMode.address
          (Inner.AddressingMode.toOuter (Inner.AddressingMode.Absolute 3)) zeroCpu :=
  ⟨by decide,
   (c10_common_variants_agree (Inner.AddressingMode.Absolute 3) zeroCpu 0 (by decide)).1⟩

/-- C6: running the PPU drain loop with NMI enabled over a stream whose
first vblank event is reached before the picture-cycle debt is used up
latches input exactly once, counts exactly one NMI trigger, and breaks
out at that event, leaving the rest of the stream undrained even though
the remaining debt may still be positive. -/
theorem c6_vblank_break_triggers_once (debt : Int)
    (evs1 : List PpuEvent) (ev : PpuEvent) (evs2 : List PpuEvent)
    (hnv : ∀ e ∈ evs1, e.vblank = false)
    (hvb : ev.vblank = true)
    (hdebt : (((evs1.map PpuEvent.cy).sum : Nat) : Int) < debt) :
    drainPpu true debt (evs1 ++ ev :: evs2) =
      { debt := debt - ((((evs1.map PpuEvent.cy).sum : Nat) : Int) + ev.cy),
        nmiTriggers := 1, inputLatches := 1, rest := evs2 } := by
  induction evs1 generalizing debt with
  | nil =>
    have h0 : 0 < debt := by simpa using hdebt
    simp [drainPpu, hvb, h0]
  | cons e es ih =>
    have he : e.vblank = false := hnv e (by simp)
    have hsum : ((e.cy : Int) + ((es.map PpuEvent.cy).sum : Nat)) < debt := by
      have := hdebt
      simp only [List.map_cons, List.sum_cons, Nat.cast_add] at this
      exact this
    have h0 : 0 < debt := by
      have hnn : (0 : Int) ≤ ((es.map PpuEvent.cy).sum : Nat) := Int.natCast_nonneg _
      have hnn2 : (0 : Int) ≤ (e.cy : Int) := Int.natCast_nonneg _
      omega
    have hrec := ih (debt - (e.cy : Int))
      (fun x hx => hnv x (List.mem_cons_of_mem _ hx)) (by omega)
    rw [List.cons_append]
    show drainPpu true debt (e :: (es ++ ev :: evs2)) = _
    rw [drainPpu]
    simp only [h0, if_pos, he, Bool.false_eq_true, if_false]
    rw [hrec]
    simp only [List.map_cons, List.sum_cons, Nat.cast_add, DrainResult.mk.injEq]
    refine ⟨by omega, by trivial, by trivial, by trivial⟩

/-- C6 witness: a concrete drain with debt 10 where the vblank event is
hit after one non-vblank step; delivery fires once and the loop stops
with debt 4 still positive and one event left undrained. -/
theorem c6_vblank_break_triggers_once_witness :
    drainPpu true 10
      [{ cy := 2, hblank := false, vblank := false },
       { cy := 4, hblank := false, vblank := true },
       { cy := 1, hblank := false, vblank := false }] =
      { debt := 4, nmiTriggers := 1, inputLatches := 1,
        rest := [{ cy := 1, hblank := false, vblank := false }] } ∧
    (0 : Int) < 4 := by
  refine ⟨?_, by norm_num⟩
  have h := c6_vblank_break_triggers_once 10
    [{ cy := 2, hblank := false, vblank := false }]
    { cy := 4, hblank := false, vblank := true }
    [{ cy := 1, hblank := false, vblank := false }]
    (by decide) rfl (by decide)
  simpa using h

/-- Word load through a non-immediate variant at a resolved address. -/
theorem loadw_resolved (am : AddressingMode) (cpu : Cpu) (bank addr : Nat)
    (him : am.isImmediate = false) (haddr : am.address cpu = some (bank, addr)) :
    am.loadw cpu =
      if addr < 0xffff then some ((cpu.mem bank (addr + 1)) <<< 8 ||| cpu.mem bank addr)
      else none := by
  cases am
  case Immediate v => simp [AddressingMode.isImmediate] at him
  case Immediate8 v => simp [AddressingMode.isImmediate] at him
  all_goals simp only [AddressingMode.loadw, haddr, Option.bind_eq_bind, Option.some_bind]

/-- Word store through a non-immediate variant at a resolved address. -/
theorem storew_resolved (am : AddressingMode) (cpu : Cpu) (bank addr v : Nat)
    (haddr : am.address cpu = some (bank, addr)) :
    am.storew cpu v =
      if addr < 0xffff then
        some { cpu with
               mem := storeMem (storeMem cpu.mem bank addr (v % 256))
                               bank (addr + 1) ((v >>> 8) % 256) }
      else none := by
  simp only [AddressingMode.storew, haddr, Option.bind_eq_bind, Option.some_bind]

/-- C8: for every non-immediate variant whose effective address resolves
to (bank, addr), the word accessors trap exactly when addr is 0xFFFF,
the last byte of the bank; below that they access precisely the bytes at
addr and addr + 1 in the same bank (loadw reads them little-endian,
storew writes low then high) and leave every other cell untouched. -/
theorem c8_word_access (am : AddressingMode) (cpu : Cpu) (bank addr v : Nat)
    (him : am.isImmediate = false)
    (haddr : am.address cpu = some (bank, addr))
    (hlt : addr < 65536) :
    (am.loadw cpu = none ↔ addr = 0xffff) ∧
    (am.storew cpu v = none ↔ addr = 0xffff) ∧
    (addr < 0xffff →
      am.loadw cpu = some ((cpu.mem bank (addr + 1)) <<< 8 ||| cpu.mem bank addr)) ∧
    (addr < 0xffff → memAt (am.storew cpu v) bank addr = some (v % 256)) ∧
    (addr < 0xffff → memAt (am.storew cpu v) bank (addr + 1) = some ((v >>> 8) % 256)) ∧
    (addr < 0xffff → ∀ b2 a2, ¬(b2 = bank ∧ (a2 = addr ∨ a2 = addr + 1)) →
      memAt (am.storew cpu v) b2 a2 = some (cpu.mem b2 a2)) := by
  rw [loadw_resolved am cpu bank addr him haddr, storew_resolved am cpu bank addr v haddr]
  refine ⟨?_, ?_, ?_, ?_, ?_, ?_⟩
  · split_ifs with h
    · constructor
      · intro hc
        exact hc.elim
      · intro hc
        exact absurd hc (by omega)
    · constructor
      · intro _
        omega
      · intro _
        rfl
  · split_ifs with h
    · constructor
      · intro hc
        exact hc.elim
      · intro hc
        exact absurd hc (by omega)
    · constructor
      · intro _
        omega
      · intro _
        rfl
  · intro h
    rw [if_pos h]
  · intro h
    rw [if_pos h, memAt]
    show some (storeMem (storeMem cpu.mem bank addr (v % 256))
               bank (addr + 1) ((v >>> 8) % 256) bank addr) = _
    rw [storeMem_other _ _ _ _ _ _ (by omega), storeMem_self]
    exact congrArg some (by omega)
  · intro h
    rw [if_pos h, memAt]
    show some (storeMem (storeMem cpu.mem bank addr (v % 256))
               bank (addr + 1) ((v >>> 8) % 256) bank (addr + 1)) = _
    rw [storeMem_self]
    exact congrArg some (by omega)
  · intro h b2 a2 hna
    rw [if_pos h, memAt]
    show some (storeMem (storeMem cpu.mem bank addr (v % 256))
               bank (addr + 1) ((v >>> 8) % 256) b2 a2) = _
    rw [storeMem_other _ _ _ _ _ _ (by tauto), storeMem_other _ _ _ _ _ _ (by tauto)]

/-- One pushb step in emulation mode, phrased on the 256 + t
decomposition of the stack pointer. -/
theorem pushb_emu2 (cpu : Cpu) (v t : Nat) (he : cpu.emulation = true)
    (ht : t < 256) (hs : cpu.s = 256 + t) :
    cpu.pushb v = some { cpu with
                         mem := storeMem cpu.mem 0 (256 + t) v,
                         s := 256 + (t + 255) % 256 } := by
  have hmask : cpu.s &&& 0xff00 = 0x0100 := by rw [hs]; exact add256_and_ff00 ht
  rw [pushb_emu cpu v he hmask, hs, show (256 + t) % 256 = t from by omega]

/-- One popb step in emulation mode, phrased on the 256 + t
decomposition of the stack pointer. -/
theorem popb_emu2 (cpu : Cpu) (t : Nat) (he : cpu.emulation = true)
    (ht : t < 256) (hs : cpu.s = 256 + t) :
    cpu.popb = some (cpu.mem 0 (256 + (t + 1) % 256),
                     { cpu with s := 256 + (t + 1) % 256 }) := by
  have hmask : cpu.s &&& 0xff00 = 0x0100 := by rw [hs]; exact add256_and_ff00 ht
  rw [popb_emu cpu he hmask, hs, show (256 + t) % 256 = t from by omega]

/-- A word push in emulation mode: high byte stored at S, low byte at
the decremented pointer, pointer decremented twice (low-byte wrap only). -/
theorem pushw_emu (cpu : Cpu) (v t : Nat) (he : cpu.emulation = true)
    (ht : t < 256) (hs : cpu.s = 256 + t) :
    cpu.pushw v = some { cpu with
                         mem := storeMem (storeMem cpu.mem 0 (256 + t) ((v >>> 8) % 256))
                                         0 (256 + (t + 255) % 256) (v % 256),
                         s := 256 + ((t + 255) % 256 + 255) % 256 } := by
  have A := pushb_emu2 cpu ((v >>> 8) % 256) t he ht hs
  have B := pushb_emu2
    { cpu with
      mem := storeMem cpu.mem 0 (256 + t) ((v >>> 8) % 256),
      s := 256 + (t + 255) % 256 }
    (v % 256) ((t + 255) % 256) he (by omega) rfl
  simp only [Cpu.pushw, Option.bind_eq_bind]
  rw [A, Option.some_bind]
  exact B

/-- A word pop in emulation mode: low byte read at S incremented once,
high byte at S incremented twice (low-byte wrap only). -/
theorem popw_emu (cpu : Cpu) (t : Nat) (he : cpu.emulation = true)
    (ht : t < 256) (hs : cpu.s = 256 + t) :
    cpu.popw = some ((cpu.mem 0 (256 + (t + 2) % 256) <<< 8) |||
                       cpu.mem 0 (256 + (t + 1) % 256),
                     { cpu with s := 256 + (t + 2) % 256 }) := by
  have A := popb_emu2 cpu t he ht hs
  have B := popb_emu2 { cpu with s := 256 + (t + 1) % 256 }
    ((t + 1) % 256) he (by omega) rfl
  have hq : ((t + 1) % 256 + 1) % 256 = (t + 2) % 256 := by omega
  rw [hq] at B
  simp only [Cpu.popw, Option.bind_eq_bind]
  rw [A]
  simp only [Option.some_bind]
  rw [B]
  simp only [Option.some_bind]

/-- C8 witness at the Absolute variant with offset 0x20. -/
theorem c8_word_access_witness :
    AddressingMode.isImmediate (AddressingMode.Absolute 0x20) = false ∧
    AddressingMode.address (AddressingMode.Absolute 0x20) zeroCpu = some (0, 0x20) ∧
    (0x20 : Nat) < 65536 ∧
    (AddressingMode.loadw (AddressingMode.Absolute 0x20) zeroCpu = none ↔
      (0x20 : Nat) = 0xffff) :=
  ⟨by decide, by decide, by decide,
   (c8_word_access (AddressingMode.Absolute 0x20) zeroCpu 0 0x20 7
     (by decide) (by decide) (by decide)).1⟩

/-- A word push in native mode: high byte at S, low byte at S - 1, with
full 16-bit wraparound of the pointer. -/
theorem pushw_nat (cpu : Cpu) (v : Nat) (he : cpu.emulation = false) :
    cpu.pushw v = some { cpu with
                         mem := storeMem (storeMem cpu.mem 0 cpu.s ((v >>> 8) % 256))
                                         0 ((cpu.s + 65535) % 65536) (v % 256),
                         s := ((cpu.s + 65535) % 65536 + 65535) % 65536 } := by
  have A := pushb_nat cpu ((v >>> 8) % 256) he
  have B := pushb_nat
    { cpu with
      mem := storeMem cpu.mem 0 cpu.s ((v >>> 8) % 256),
      s := (cpu.s + 65535) % 65536 } (v % 256) he
  simp only [Cpu.pushw, Option.bind_eq_bind]
  rw [A]
  simp only [Option.some_bind]
  exact B

/-- A word pop in native mode: low byte at S + 1, high byte at S + 2,
with full 16-bit wraparound of the pointer. -/
theorem popw_nat (cpu : Cpu) (he : cpu.emulation = false) :
    cpu.popw = some ((cpu.mem 0 (((cpu.s + 1) % 65536 + 1) % 65536) <<< 8) |||
                       cpu.mem 0 ((cpu.s + 1) % 65536),
                     { cpu with s := ((cpu.s + 1) % 65536 + 1) % 65536 }) := by
  have A := popb_nat cpu he
  have B := popb_nat { cpu with s := (cpu.s + 1) % 65536 } he
  simp only [Cpu.popw, Option.bind_eq_bind]
  rw [A]
  simp only [Option.some_bind]
  rw [B]
  simp only [Option.some_bind]

/-- The stack discipline in emulation mode: word and byte push/pop round
trips restore the stack pointer and return the pushed values. -/
theorem c5_emu (cpu : Cpu) (v a b : Nat)
    (he : cpu.emulation = true) (hs : cpu.s < 65536)
    (hmask : cpu.s &&& 0xff00 = 0x0100)
    (hv : v < 65536) (ha : a < 256) (hb : b < 256) :
    pushwPopw cpu v = some (v, cpu.s) ∧
    memAt (cpu.pushw v) 0 cpu.s = some ((v >>> 8) % 256) ∧
    memAt (cpu.pushw v) 0 (stackDec cpu.emulation cpu.s) = some (v % 256) ∧
    push2pop2 cpu a b = some (b, a, cpu.s) := by
  have hts : cpu.s = 256 + cpu.s % 256 := s_decomp hs hmask
  have ht : cpu.s % 256 < 256 := by omega
  obtain ⟨t, hG⟩ : ∃ t, cpu.s % 256 = t := ⟨_, rfl⟩
  rw [hG] at hts ht
  have hvdiv : v >>> 8 = v / 256 := Nat.shiftRight_eq_div_pow v 8
  have m1 : (storeMem (storeMem cpu.mem 0 (256 + t) ((v >>> 8) % 256))
               0 (256 + (t + 255) % 256) (v % 256)) 0 (256 + t)
      = (v >>> 8) % 256 := by
    rw [storeMem_other _ _ _ _ _ _ (fun hc => absurd hc.2 (by omega)), storeMem_self]
    omega
  have m2 : (storeMem (storeMem cpu.mem 0 (256 + t) ((v >>> 8) % 256))
               0 (256 + (t + 255) % 256) (v % 256)) 0 (256 + (t + 255) % 256)
      = v % 256 := by
    rw [storeMem_self]
    omega
  have P := pushw_emu cpu v t he ht hts
  refine ⟨?_, ?_, ?_, ?_⟩
  · have Q := popw_emu
      { cpu with
        mem := storeMem (storeMem cpu.mem 0 (256 + t) ((v >>> 8) % 256))
                        0 (256 + (t + 255) % 256) (v % 256),
        s := 256 + ((t + 255) % 256 + 255) % 256 }
      (((t + 255) % 256 + 255) % 256) he (by omega) rfl
    have e1 : (((t + 255) % 256 + 255) % 256 + 1) % 256 = (t + 255) % 256 := by omega
    have e2 : (((t + 255) % 256 + 255) % 256 + 2) % 256 = t := by omega
    rw [e1, e2] at Q
    rw [pushwPopw, P]
    simp only [Option.some_bind]
    rw [Q]
    simp only [Option.map_some']
    refine congrArg some ?_
    show ((storeMem (storeMem cpu.mem 0 (256 + t) ((v >>> 8) % 256))
             0 (256 + (t + 255) % 256) (v % 256)) 0 (256 + t) <<< 8 |||
          (storeMem (storeMem cpu.mem 0 (256 + t) ((v >>> 8) % 256))
             0 (256 + (t + 255) % 256) (v % 256)) 0 (256 + (t + 255) % 256),
          (256 + t : Nat)) = (v, cpu.s)
    rw [m1, m2, shl8_or_eq_add (by omega), ← hts]
    exact congrArg (fun q => (q, cpu.s)) (by omega)
  · rw [memAt, P]
    simp only [Option.map_some']
    show some ((storeMem (storeMem cpu.mem 0 (256 + t) ((v >>> 8) % 256))
                  0 (256 + (t + 255) % 256) (v % 256)) 0 cpu.s)
        = some ((v >>> 8) % 256)
    rw [hts, m1]
  · rw [memAt, P]
    simp only [Option.map_some']
    have hsd : stackDec cpu.emulation cpu.s = 256 + (t + 255) % 256 := by
      rw [he]
      show (cpu.s &&& 0xff00) ||| ((cpu.s % 256 + 255) % 256) = 256 + (t + 255) % 256
      rw [hmask, hG, or256_eq_add (by omega)]
    show some ((storeMem (storeMem cpu.mem 0 (256 + t) ((v >>> 8) % 256))
                  0 (256 + (t + 255) % 256) (v % 256))
                 0 (stackDec cpu.emulation cpu.s))
        = some (v % 256)
    rw [hsd, m2]
  · have B1 := pushb_emu2 cpu a t he ht hts
    have B2 := pushb_emu2
      { cpu with
        mem := storeMem cpu.mem 0 (256 + t) a,
        s := 256 + (t + 255) % 256 }
      b ((t + 255) % 256) he (by omega) rfl
    have B3 := popb_emu2
      { cpu with
        mem := storeMem (storeMem cpu.mem 0 (256 + t) a) 0 (256 + (t + 255) % 256) b,
        s := 256 + ((t + 255) % 256 + 255) % 256 }
      (((t + 255) % 256 + 255) % 256) he (by omega) rfl
    have e1 : (((t + 255) % 256 + 255) % 256 + 1) % 256 = (t + 255) % 256 := by omega
    rw [e1] at B3
    have B4 := popb_emu2
      { cpu with
        mem := storeMem (storeMem cpu.mem 0 (256 + t) a) 0 (256 + (t + 255) % 256) b,
        s := 256 + (t + 255) % 256 }
      ((t + 255) % 256) he (by omega) rfl
    have e3 : ((t + 255) % 256 + 1) % 256 = t := by omega
    rw [e3] at B4
    simp only [push2pop2, Option.bind_eq_bind]
    rw [B1]
    simp only [Option.some_bind]
    rw [B2]
    simp only [Option.some_bind]
    rw [B3]
    simp only [Option.some_bind]
    rw [B4]
    simp only [Option.some_bind]
    refine congrArg some ?_
    show ((storeMem (storeMem cpu.mem 0 (256 + t) a) 0 (256 + (t + 255) % 256) b)
            0 (256 + (t + 255) % 256),
          (storeMem (storeMem cpu.mem 0 (256 + t) a) 0 (256 + (t + 255) % 256) b)
            0 (256 + t),
          (256 + t : Nat)) = (b, a, cpu.s)
    rw [storeMem_self,
        storeMem_other _ _ _ _ _ _ (fun hc => absurd hc.2 (by omega)),
        storeMem_self, ← hts,
        Nat.mod_eq_of_lt hb, Nat.mod_eq_of_lt ha]

/-- Unfolds the two-byte push/pop observer given the four step results. -/
theorem push2pop2_eq (cpu c1 c2 : Cpu) (a b r1 : Nat) (c3 : Cpu) (r2 : Nat) (c4 : Cpu)
    (h1 : cpu.pushb a = some c1) (h2 : c1.pushb b = some c2)
    (h3 : c2.popb = some (r1, c3)) (h4 : c3.popb = some (r2, c4)) :
    push2pop2 cpu a b = some (r1, r2, c4.s) := by
  rw [push2pop2, h1, Option.some_bind, h2, Option.some_bind, h3, Option.some_bind]
  show c3.popb.bind (fun r2q => some (r1, r2q.1, r2q.2.s)) = some (r1, r2, c4.s)
  rw [h4, Option.some_bind]

/-- One popb step in native mode with an explicit incremented pointer. -/
theorem popb_nat2 (cpu : Cpu) (s0 : Nat) (he : cpu.emulation = false)
    (h1 : (cpu.s + 1) % 65536 = s0) :
    cpu.popb = some (cpu.mem 0 s0, { cpu with s := s0 }) := by
  rw [popb_nat cpu he, h1]

/-- One popb step in native mode with the memory and the incremented
pointer both explicit. -/
theorem popb_nat3 (cpu : Cpu) (m : Mem) (s0 : Nat)
    (he : cpu.emulation = false) (hm : cpu.mem = m)
    (h1 : (cpu.s + 1) % 65536 = s0) :
    cpu.popb = some (m 0 s0, { cpu with s := s0 }) := by
  rw [popb_nat cpu he, h1, hm]

/-- A word pop in native mode with explicit low and high addresses. -/
theorem popw_nat2 (cpu : Cpu) (sLo sHi : Nat) (he : cpu.emulation = false)
    (h1 : (cpu.s + 1) % 65536 = sLo) (h2 : (sLo + 1) % 65536 = sHi) :
    cpu.popw = some ((cpu.mem 0 sHi <<< 8) ||| cpu.mem 0 sLo,
                     { cpu with s := sHi }) := by
  rw [popw_nat cpu he, h1, h2]

set_option maxRecDepth 12000 in
/-- The stack discipline in native mode: word and byte push/pop round
trips restore the stack pointer and return the pushed values. -/
theorem c5_nat (cpu : Cpu) (v a b : Nat)
    (he : cpu.emulation = false) (hs : cpu.s < 65536)
    (hv : v < 65536) (ha : a < 256) (hb : b < 256) :
    pushwPopw cpu v = some (v, cpu.s) ∧
    memAt (cpu.pushw v) 0 cpu.s = some ((v >>> 8) % 256) ∧
    memAt (cpu.pushw v) 0 (stackDec cpu.emulation cpu.s) = some (v % 256) ∧
    push2pop2 cpu a b = some (b, a, cpu.s) := by
  have hvdiv : v >>> 8 = v / 256 := Nat.shiftRight_eq_div_pow v 8
  have m1 : (storeMem (storeMem cpu.mem 0 cpu.s ((v >>> 8) % 256))
               0 ((cpu.s + 65535) % 65536) (v % 256)) 0 cpu.s
      = (v >>> 8) % 256 := by
    rw [storeMem_other _ _ _ _ _ _ (fun hc => absurd hc.2 (by omega)), storeMem_self]
    omega
  have m2 : (storeMem (storeMem cpu.mem 0 cpu.s ((v >>> 8) % 256))
               0 ((cpu.s + 65535) % 65536) (v % 256)) 0 ((cpu.s + 65535) % 65536)
      = v % 256 := by
    rw [storeMem_self]
    omega
  have P := pushw_nat cpu v he
  refine ⟨?_, ?_, ?_, ?_⟩
  · have Q := popw_nat2
      { cpu with
        mem := storeMem (storeMem cpu.mem 0 cpu.s ((v >>> 8) % 256))
                        0 ((cpu.s + 65535) % 65536) (v % 256),
        s := ((cpu.s + 65535) % 65536 + 65535) % 65536 }
      ((cpu.s + 65535) % 65536) cpu.s he
      (by show (((cpu.s + 65535) % 65536 + 65535) % 65536 + 1) % 65536
            = (cpu.s + 65535) % 65536
          omega)
      (by omega)
    rw [pushwPopw, P]
    simp only [Option.some_bind]
    rw [Q]
    simp only [Option.map_some']
    refine congrArg some ?_
    show ((storeMem (storeMem cpu.mem 0 cpu.s ((v >>> 8) % 256))
             0 ((cpu.s + 65535) % 65536) (v % 256)) 0 cpu.s <<< 8 |||
          (storeMem (storeMem cpu.mem 0 cpu.s ((v >>> 8) % 256))
             0 ((cpu.s + 65535) % 65536) (v % 256)) 0 ((cpu.s + 65535) % 65536),
          (cpu.s : Nat)) = (v, cpu.s)
    rw [m1, m2, shl8_or_eq_add (by omega)]
    exact congrArg (fun q => (q, cpu.s)) (by omega)
  · rw [memAt, P]
    simp only [Option.map_some']
    show some ((storeMem (storeMem cpu.mem 0 cpu.s ((v >>> 8) % 256))
                  0 ((cpu.s + 65535) % 65536) (v % 256)) 0 cpu.s)
        = some ((v >>> 8) % 256)
    rw [m1]
  · have hsd : stackDec cpu.emulation cpu.s = (cpu.s + 65535) % 65536 := by
      rw [he]
      rfl
    rw [memAt, P]
    simp only [Option.map_some']
    show some ((storeMem (storeMem cpu.mem 0 cpu.s ((v >>> 8) % 256))
                  0 ((cpu.s + 65535) % 65536) (v % 256))
                 0 (stackDec cpu.emulation cpu.s))
        = some (v % 256)
    rw [hsd, m2]
  · have B1 := pushb_nat cpu a he
    have B2 := pushb_nat
      { cpu with
        mem := storeMem cpu.mem 0 cpu.s a,
        s := (cpu.s + 65535) % 65536 } b he
    have B3 := popb_nat3
      { cpu with
        mem := storeMem (storeMem cpu.mem 0 cpu.s a) 0 ((cpu.s + 65535) % 65536) b,
        s := ((cpu.s + 65535) % 65536 + 65535) % 65536 }
      (storeMem (storeMem cpu.mem 0 cpu.s a) 0 ((cpu.s + 65535) % 65536) b)
      ((cpu.s + 65535) % 65536) he rfl
      (by show (((cpu.s + 65535) % 65536 + 65535) % 65536 + 1) % 65536
            = (cpu.s + 65535) % 65536
          omega)
    have B4 := popb_nat3
      { cpu with
        mem := storeMem (storeMem cpu.mem 0 cpu.s a) 0 ((cpu.s + 65535) % 65536) b,
        s := (cpu.s + 65535) % 65536 }
      (storeMem (storeMem cpu.mem 0 cpu.s a) 0 ((cpu.s + 65535) % 65536) b)
      cpu.s he rfl
      (by show ((cpu.s + 65535) % 65536 + 1) % 65536 = cpu.s
          omega)
    rw [push2pop2_eq cpu _ _ a b _ _ _ _ B1 B2 B3 B4]
    refine congrArg some ?_
    show ((storeMem (storeMem cpu.mem 0 cpu.s a) 0 ((cpu.s + 65535) % 65536) b)
            0 ((cpu.s + 65535) % 65536),
          (storeMem (storeMem cpu.mem 0 cpu.s a) 0 ((cpu.s + 65535) % 65536) b)
            0 cpu.s,
          (cpu.s : Nat)) = (b, a, cpu.s)
    rw [storeMem_self,
        storeMem_other _ _ _ _ _ _ (fun hc => absurd hc.2 (by omega)),
        storeMem_self,
        Nat.mod_eq_of_lt hb, Nat.mod_eq_of_lt ha]

/-- C5: for every 16-bit value and CPU state satisfying the
emulation-mode stack invariant, pushw stores the high byte at S and the
low byte at the decremented pointer (successively lower addresses), a
subsequent popw pops low then high and returns the original value, the
push/pop cycle restores the stack pointer, and byte pushes of a then b
pop as b then a with the pointer restored. -/
theorem c5_stack_discipline (cpu : Cpu) (v a b : Nat)
    (hs : cpu.s < 65536)
    (hinv : cpu.emulation = true → cpu.s &&& 0xff00 = 0x0100)
    (hv : v < 65536) (ha : a < 256) (hb : b < 256) :
    pushwPopw cpu v = some (v, cpu.s) ∧
    memAt (cpu.pushw v) 0 cpu.s = some ((v >>> 8) % 256) ∧
    memAt (cpu.pushw v) 0 (stackDec cpu.emulation cpu.s) = some (v % 256) ∧
    push2pop2 cpu a b = some (b, a, cpu.s) := by
  rcases Bool.dichotomy cpu.emulation with he | he
  · exact c5_nat cpu v a b he hs hv ha hb
  · exact c5_emu cpu v a b he hs (hinv he) hv ha hb

/-- C5 witness at an emulation-mode state with S = 0x01FF. -/
theorem c5_stack_discipline_witness :
    c5cpu.s < 65536 ∧ (c5cpu.emulation = true → c5cpu.s &&& 0xff00 = 0x0100) ∧
    pushwPopw c5cpu 0xABCD = some (0xABCD, c5cpu.s) ∧
    push2pop2 c5cpu 1 2 = some (2, 1, c5cpu.s) :=
  ⟨by decide, by decide,
   (c5_stack_discipline c5cpu 0xABCD 1 2 (by decide) (by decide)
     (by decide) (by decide) (by decide)).1,
   (c5_stack_discipline c5cpu 0xABCD 1 2 (by decide) (by decide)
     (by decide) (by decide) (by decide)).2.2.2⟩

end Breeze
